import Mathlib

/-!
Verification of the continuous video-summary agent
(src/custom_agent/continuous_agent.py) against its specification.

The agent's data model and operations are shallowly embedded here:
pure fragments of the Python code become Lean functions; the file
system, the clock and the Ollama HTTP collaborator are passed in as
explicit oracles (a `CycleEnv`), so one call of `process_new_files`
corresponds to one cycle of the Python loop with a fixed environment.
Python dicts are embedded as insertion-ordered association lists,
Python sets as duplicate-free lists in insertion order together with
an explicit enumeration function (`CycleEnv.enumSet`) standing for the
unspecified iteration order of `list(set)`.
-/

namespace ContinuousAgent

/-- Embedding of the pydantic model `VideoSummary` (continuous_agent.py,
lines 34-41).  All fields are `Optional`; the `metadata` dict is embedded
as an association list with string values (its values never influence
control flow in the agent). -/
structure VideoSummary where
  video_id : Option String := none
  title : Option String := none
  description : Option String := none
  ai_summary : Option String := none
  duration : Option String := none
  metadata : Option (List (String × String)) := none
deriving DecidableEq, Repr

/-- Embedding of the pydantic model `OverallSummary` (continuous_agent.py,
lines 43-50).  `file_hashes` and `summary_metadata` are Python dicts,
embedded as insertion-ordered association lists; `total_videos` and
`total_files` are Python ints, embedded as `Int`. -/
structure OverallSummary where
  total_videos : Int
  total_files : Int
  overall_ai_description : String
  processed_files : List String
  file_hashes : List (String × String)
  summary_metadata : List (String × String)
deriving DecidableEq, Repr

/-- The mutable fields of `ContinuousVideoAgent` that the processing loop
reads and writes: the Python set `self.processed_files` (embedded as a
duplicate-free list in insertion order) and `self.overall_summary`
(lines 245-246). -/
structure AgentState where
  processed_files : List String
  overall_summary : Option OverallSummary
deriving DecidableEq, Repr

/-- Keys of an embedded Python dict, in insertion order. -/
def dictKeys (d : List (String × String)) : List String :=
  d.map Prod.fst

/-- Values of an embedded Python dict, in insertion order
(`dict.values()`). -/
def dictValues (d : List (String × String)) : List String :=
  d.map Prod.snd

/-- Embedding of Python dict item assignment `d[k] = v`: overwrite the
value in place when the key is present, append the pair otherwise. -/
def dictInsert (d : List (String × String)) (k v : String) :
    List (String × String) :=
  if k ∈ dictKeys d then
    d.map (fun kv => if kv.1 = k then (k, v) else kv)
  else
    d ++ [(k, v)]

/-- Embedding of Python `d1.update(d2)`: insert the pairs of `d2` into
`d1` in order. -/
def dictUpdate (d1 : List (String × String)) :
    List (String × String) → List (String × String)
  | [] => d1
  | kv :: rest => dictUpdate (dictInsert d1 kv.1 kv.2) rest

/-- Embedding of Python `s.update(ps)` on a set represented as a
duplicate-free list in insertion order: append each element not already
present. -/
def setUpdate (s : List String) (ps : List String) : List String :=
  ps.foldl (fun acc p => if p ∈ acc then acc else acc ++ [p]) s

/-- Truthiness of an `Optional[str]` field in Python: `None` and the
empty string are falsy. -/
def truthy : Option String → Bool
  | some s => !(s = "")
  | none => false

/-! ### OllamaClient -/

/-- The fixed tier list scanned by `analyze_content_complexity`
(continuous_agent.py, line 121), in increasing-detail order. -/
def detail_levels : List String :=
  ["BRIEF", "STANDARD", "DETAILED", "EXTENSIVE"]

/-- Tests whether the second character list occurs at the front of the
first. -/
def leadsWith : List Char → List Char → Bool
  | _, [] => true
  | [], _ :: _ => false
  | a :: as, b :: bs => a = b && leadsWith as bs

/-- Tests whether the second character list occurs contiguously anywhere
inside the first (Python `needle in haystack` on strings). -/
def hasSub : List Char → List Char → Bool
  | [], needle => needle.isEmpty
  | a :: tl, needle => leadsWith (a :: tl) needle || hasSub tl needle

/-- Embedding of the check `level in detail_response.upper()`
(continuous_agent.py, line 123).  Python `str.upper()` is embedded as a
per-character uppercase map, which agrees with it on the ASCII text
relevant here (the tier keywords are ASCII). -/
def containsLevel (resp lvl : String) : Bool :=
  hasSub (resp.toList.map Char.toUpper) lvl.toList

/-- Result of one HTTP POST to the Ollama generate endpoint, as the
agent observes it: `Except.error ()` for any `requests` exception
(connection failure, timeout, non-2xx status), and on success the
optional `"response"` field of the returned JSON document. -/
abbrev OllamaCall := Except Unit (Option String)

/-- Embedding of `OllamaClient.analyze_content_complexity`
(continuous_agent.py, lines 67-133).  The prompt built from the video
summaries only parametrizes the HTTP call, which is passed in as the
oracle `call`; the returned level depends only on the call's outcome:
on failure the fallback is `"STANDARD"`; on success the raw response
text (defaulting to `"STANDARD"` when the `"response"` field is absent)
is scanned against `detail_levels` in order and the first tier keyword
occurring in its uppercased form is returned, with fallback
`"STANDARD"` when none occurs. -/
def analyze_content_complexity (call : OllamaCall) : String :=
  match call with
  | Except.error _ => "STANDARD"
  | Except.ok fieldVal =>
    let detail_response := fieldVal.getD "STANDARD"
    match detail_levels.find? (fun lvl => containsLevel detail_response lvl) with
    | some lvl => lvl
    | none => "STANDARD"

/-- The fixed fallback sentinel returned by `generate_summary` when the
generation call raises (continuous_agent.py, line 173). -/
def genFailureSentinel : String :=
  "Error: Unable to generate summary due to Ollama connection issues"

/-- The default used when the generation response lacks a `"response"`
field (continuous_agent.py, line 169). -/
def genMissingFieldDefault : String :=
  "Unable to generate summary"

/-- Embedding of `OllamaClient.generate_summary` (continuous_agent.py,
lines 135-173).  The complexity analysis is performed first (its result
only sizes the token budget of the generation payload); the generation
call itself is the oracle `genCall`: on failure the fixed failure
sentinel is returned, otherwise the `"response"` field with its
default. -/
def generate_summary (analysisCall genCall : OllamaCall) : String :=
  let _detail_level := analyze_content_complexity analysisCall
  match genCall with
  | Except.error _ => genFailureSentinel
  | Except.ok fieldVal => fieldVal.getD genMissingFieldDefault

/-! ### ContinuousVideoAgent helpers -/

/-- Embedding of `ContinuousVideoAgent._get_file_hash` (continuous_agent.py,
lines 288-294).  The oracle `hashOf` stands for reading the file's full
byte content and taking its MD5 hex digest: `none` models any exception
while reading, in which case the method returns the empty string. -/
def _get_file_hash (hashOf : String → Option String) (p : String) : String :=
  match hashOf p with
  | some h => h
  | none => ""

/-- Embedding of `ContinuousVideoAgent._is_file_processed`
(continuous_agent.py, lines 296-306): the path-membership check against
the `processed_files` set, then — only when an overall summary exists
and its hash dict is non-empty (Python truthiness of both) — the
content-hash check against the recorded hash values. -/
def _is_file_processed (hashOf : String → Option String)
    (processedFiles : List String) (overall : Option OverallSummary)
    (p : String) : Bool :=
  if p ∈ processedFiles then true
  else
    match overall with
    | some s =>
      if s.file_hashes ≠ [] then
        decide (_get_file_hash hashOf p ∈ dictValues s.file_hashes)
      else false
    | none => false

/-- Embedding of `ContinuousVideoAgent.extract_ai_summaries`
(continuous_agent.py, lines 368-380): per item, prefer a truthy
`ai_summary`, else a truthy `description`, else a truthy `title` with
the fixed prefixed text, else skip the item. -/
def extract_ai_summaries (vs : List VideoSummary) : List String :=
  vs.filterMap (fun v =>
    if truthy v.ai_summary then v.ai_summary
    else if truthy v.description then v.description
    else if truthy v.title then (v.title.map (fun t => "Title: " ++ t))
    else none)

/-- The environment of one cycle of `process_new_files`: every external
observation the Python code makes during the cycle, fixed up front.
`jsonFiles` is the result of `glob("*.json")` on the monitor directory,
`nameOf` maps a path to its basename, `loadFile` is the result of
`load_json_file` on each path (`[]` on any parse or read failure, which
the Python method swallows and logs), `hashOf` underlies
`_get_file_hash`, `enumSet` is the iteration order the runtime happens
to use for `list(self.processed_files)` (unspecified for Python sets),
and `nowStr` is `time.strftime` at the update point. -/
structure CycleEnv where
  available : Bool
  jsonFiles : List String
  nameOf : String → String
  outputName : String
  loadFile : String → List VideoSummary
  hashOf : String → Option String
  analysisCall : OllamaCall
  genCall : OllamaCall
  enumSet : List String → List String
  nowStr : String
  modelName : String
  monitorDir : String

/-- The new-file filter of `process_new_files` (continuous_agent.py,
lines 391-399): keep the scanned paths whose basename differs from the
output file's, that are not in the processed set, and that
`_is_file_processed` rejects. -/
def newFiles (env : CycleEnv) (st : AgentState) : List String :=
  env.jsonFiles.filter (fun p =>
    !(env.nameOf p = env.outputName) &&
    !(decide (p ∈ st.processed_files)) &&
    !(_is_file_processed env.hashOf st.processed_files st.overall_summary p))

/-- The three accumulators of the per-file loop of `process_new_files`
(continuous_agent.py, lines 407-409): `all_video_summaries`,
`processed_file_paths` and the cycle-local `file_hashes` dict. -/
structure Collected where
  avs : List String
  ppaths : List String
  fhashes : List (String × String)
deriving DecidableEq, Repr

/-- Embedding of the per-file loop of `process_new_files`
(continuous_agent.py, lines 418-430): for each new file in order, load
it; when the loaded list is non-empty, append its extracted summaries,
append its path and record its content hash; otherwise leave the
accumulators unchanged. -/
def collectFiles (loadFile : String → List VideoSummary)
    (hashOf : String → Option String) :
    List String → Collected → Collected
  | [], acc => acc
  | p :: rest, acc =>
    let vs := loadFile p
    if vs ≠ [] then
      collectFiles loadFile hashOf rest
        ⟨acc.avs ++ extract_ai_summaries vs, acc.ppaths ++ [p],
         dictInsert acc.fhashes p (_get_file_hash hashOf p)⟩
    else
      collectFiles loadFile hashOf rest acc

/-- The placeholder strings prepended to `all_video_summaries` when a
prior overall summary exists (continuous_agent.py, lines 412-415):
`"Previously processed video {i+1}"` for `i in
range(total_videos)`. -/
def placeholderSummaries (overall : Option OverallSummary) : List String :=
  match overall with
  | some s => (List.range s.total_videos.toNat).map
      (fun i => "Previously processed video " ++ toString (i + 1))
  | none => []

/-- The accumulators after the per-file loop of one cycle, starting from
the placeholder summaries and empty path/hash accumulators. -/
def cycleCollected (env : CycleEnv) (st : AgentState) : Collected :=
  collectFiles env.loadFile env.hashOf (newFiles env st)
    ⟨placeholderSummaries st.overall_summary, [], []⟩

/-- `self.overall_summary.total_files if self.overall_summary else 0`
(continuous_agent.py, line 450). -/
def priorTotalFiles (overall : Option OverallSummary) : Int :=
  match overall with
  | some s => s.total_files
  | none => 0

/-- The prior hash dict, empty when no summary exists
(continuous_agent.py, lines 456-458). -/
def priorHashes (overall : Option OverallSummary) : List (String × String) :=
  match overall with
  | some s => s.file_hashes
  | none => []

/-- Result of one call of `process_new_files`: the agent state
afterwards, the boolean return value, and whether the cycle invoked
`OllamaClient.generate_summary` and `_save_summary`. -/
structure CycleResult where
  state : AgentState
  retval : Bool
  generateInvoked : Bool
  saved : Bool
deriving DecidableEq, Repr

/-- Embedding of `ContinuousVideoAgent.process_new_files`
(continuous_agent.py, lines 382-483).  The branches mirror the source:
abort returning `False` when Ollama is unavailable; return `True`
without changes when no new files are found; run the per-file loop;
return `True` without committing anything when the accumulated summary
list (placeholders plus extracted items) is empty; otherwise call
`generate_summary`, build a fresh `OverallSummary` (lines 449-472,
with `list(self.processed_files)` embedded as `env.enumSet`),
update the processed set, and save. -/
def process_new_files (env : CycleEnv) (st : AgentState) : CycleResult :=
  if !env.available then ⟨st, false, false, false⟩
  else
    let nf := newFiles env st
    if nf = [] then ⟨st, true, false, false⟩
    else
      let cc := cycleCollected env st
      if cc.avs = [] then ⟨st, true, false, false⟩
      else
        let desc := generate_summary env.analysisCall env.genCall
        let newSummary : OverallSummary :=
          { total_videos := (cc.avs.length : Int)
            total_files := (cc.ppaths.length : Int) +
              priorTotalFiles st.overall_summary
            overall_ai_description := desc
            processed_files := env.enumSet st.processed_files ++ cc.ppaths
            file_hashes := dictUpdate (priorHashes st.overall_summary) cc.fhashes
            summary_metadata :=
              [("model_used", env.modelName), ("last_updated", env.nowStr),
               ("monitor_directory", env.monitorDir)] }
        ⟨⟨setUpdate st.processed_files cc.ppaths, some newSummary⟩,
          true, true, true⟩

/-! ### Persistence (`_save_summary`) -/

/-- Serialization of an `OverallSummary` to the persisted JSON document,
modelling `json.dump(self.overall_summary.model_dump(), file, ...)`
(continuous_agent.py, line 283): a single textual rendering containing
every field, in `model_dump` field order.  The exact whitespace of the
Python renderer is immaterial to the claims about `_save_summary`; what
matters is that the rendering is a concrete string covering the full
state. -/
def serializeFields : List String → String
  | [] => ""
  | [x] => x
  | x :: y :: rest => x ++ ", " ++ serializeFields (y :: rest)

/-- Rendering of a list of strings. -/
def serializeList (xs : List String) : String :=
  "[" ++ serializeFields (xs.map (fun x => "\x22" ++ x ++ "\x22")) ++ "]"

/-- Rendering of an embedded dict. -/
def serializeDict (d : List (String × String)) : String :=
  "\x7b" ++
    serializeFields (d.map (fun kv => "\x22" ++ kv.1 ++ "\x22: \x22" ++ kv.2 ++ "\x22")) ++
  "\x7d"

/-- Rendering of the whole persisted state. -/
def serializeState (s : OverallSummary) : String :=
  "\x7b\x22total_videos\x22: " ++ toString s.total_videos ++
  ", \x22total_files\x22: " ++ toString s.total_files ++
  ", \x22overall_ai_description\x22: \x22" ++ s.overall_ai_description ++
  "\x22, \x22processed_files\x22: " ++ serializeList s.processed_files ++
  ", \x22file_hashes\x22: " ++ serializeDict s.file_hashes ++
  ", \x22summary_metadata\x22: " ++ serializeDict s.summary_metadata ++
  "\x7d"

/-- The first `n` characters of a string. -/
def takeChars (n : Nat) (s : String) : String :=
  String.mk (s.toList.take n)

/-- Crash model of `_save_summary` (continuous_agent.py, lines 278-286).
The method opens the output file with mode `w` — which truncates it —
and then streams the serialized document into it.  `saveWriteSteps old
new` lists the on-disk content at every possible crash point of one
save: before the open the disk still holds `old`; after the open and
after each written character it holds the front of `new` written so
far; the final entry is the completed document `new`. -/
def saveWriteSteps (old new : String) : List String :=
  old :: (List.range (new.toList.length + 1)).map (fun k => takeChars k new)

/-- Embedding of the final on-disk content of a completed
`_save_summary` call: when no overall summary exists the method writes
nothing and the disk keeps its previous content, otherwise the disk
holds the full serialized state. -/
def _save_summary (disk : String) (overall : Option OverallSummary) : String :=
  match overall with
  | some s => serializeState s
  | none => disk

/-! ### Module well-formedness (name resolution at class-body execution)

Python evaluates the return annotation of a `def` when the `def`
statement itself executes — here while the body of class
`ContinuousVideoAgent` runs at import time (the module has no
`from __future__ import annotations`, and setup.py targets
Python 3.8-3.11, where annotation evaluation is eager).  A name in an
annotation is looked up in the enclosing module namespace and the
builtins. -/

/-- The names bound in the module namespace of
src/custom_agent/continuous_agent.py by the time the body of class
`ContinuousVideoAgent` executes: the imports (lines 12-27), the
module-level `console` (line 32) and the three previously executed
class statements. -/
def moduleNamesAtClassBody : List String :=
  ["json", "os", "sys", "time", "hashlib", "signal", "threading",
   "Path", "List", "Dict", "Any", "Optional", "Set", "requests",
   "BaseModel", "Field", "Console", "Panel", "Progress", "SpinnerColumn",
   "TextColumn", "Table", "load_dotenv", "console",
   "VideoSummary", "OverallSummary", "OllamaClient"]

/-- The Python builtins the lookup falls through to (the standard
builtin names referenced anywhere in the module, plus common ones; the
identifier under scrutiny is a project-specific class name and is not a
builtin in any Python version). -/
def builtinNames : List String :=
  ["print", "open", "str", "int", "list", "dict", "set", "bool", "len",
   "range", "enumerate", "isinstance", "min", "max", "Exception",
   "ValueError", "FileNotFoundError", "KeyboardInterrupt", "type",
   "object", "super", "sorted", "map", "filter", "zip", "repr"]

/-- Name lookup as performed for an identifier inside a return
annotation evaluated at class-body execution time: module globals then
builtins; an unbound name raises `NameError`. -/
def resolveName (n : String) : Except String Unit :=
  if n ∈ moduleNamesAtClassBody ∨ n ∈ builtinNames then Except.ok ()
  else Except.error ("NameError: name " ++ n ++ " is not defined")

/-! ### Environment validity, reachability and the state invariant -/

/-- A cycle environment is a faithful picture of one Python cycle when
the set-enumeration oracle really enumerates the set (returns a
permutation of its elements — Python guarantees nothing more about
`list(set)`) and the directory scan lists each path once (as
`Path.glob` does). -/
def EnvOK (env : CycleEnv) : Prop :=
  (∀ l : List String, (env.enumSet l).Perm l) ∧ env.jsonFiles.Nodup

/-- Agent states reachable by running cycles from the initial state of a
fresh agent with no persisted summary (continuous_agent.py, lines
245-246), through any sequence of valid cycle environments. -/
inductive Reachable : AgentState → Prop
  | init : Reachable ⟨[], none⟩
  | step (env : CycleEnv) (st : AgentState) (henv : EnvOK env)
      (h : Reachable st) : Reachable (process_new_files env st).state

/-- Multi-cycle successor relation: `Reaches st st1` when `st1` results
from `st` by zero or more cycles through valid environments. -/
inductive Reaches : AgentState → AgentState → Prop
  | refl (st : AgentState) : Reaches st st
  | step (env : CycleEnv) (st st1 : AgentState) (henv : EnvOK env)
      (h : Reaches st st1) : Reaches st (process_new_files env st1).state

/-- The structural invariant of the agent state: the processed set holds
no duplicates; with no summary the set is empty; with a summary the set
and the summary's path list hold the same paths (up to the unspecified
set order), `total_files` counts the path list, `total_videos` is
non-negative, and every hash key is a recorded path. -/
def Inv (st : AgentState) : Prop :=
  st.processed_files.Nodup ∧
  match st.overall_summary with
  | none => st.processed_files = []
  | some s =>
      st.processed_files.Perm s.processed_files ∧
      s.total_files = (s.processed_files.length : Int) ∧
      0 ≤ s.total_videos ∧
      ∀ k ∈ dictKeys s.file_hashes, k ∈ s.processed_files

/-- `total_files` of the current summary, `0` when none exists. -/
def totalFilesOf (st : AgentState) : Int :=
  priorTotalFiles st.overall_summary

/-- `total_videos` of the current summary, `0` when none exists. -/
def totalVideosOf (st : AgentState) : Int :=
  match st.overall_summary with
  | some s => s.total_videos
  | none => 0

/-- Length of the persisted processed-path list, `0` when no summary
exists. -/
def pathCountOf (st : AgentState) : Nat :=
  match st.overall_summary with
  | some s => s.processed_files.length
  | none => 0

/-- Keys of the persisted hash dict, `[]` when no summary exists. -/
def hashKeysOf (st : AgentState) : List String :=
  dictKeys (priorHashes st.overall_summary)

/-- The hash values recorded in the current summary, against which
`_is_file_processed` compares a candidate file's content hash. -/
def recordedHashValues (overall : Option OverallSummary) : List String :=
  match overall with
  | some s => dictValues s.file_hashes
  | none => []

/-- Concatenated extraction results over a list of paths: what the
per-file loop appends to `all_video_summaries` file by file. -/
def extractsAll (loadFile : String → List VideoSummary) :
    List String → List String
  | [] => []
  | p :: rest => extract_ai_summaries (loadFile p) ++ extractsAll loadFile rest

/-- Two cycle environments observe the same directory: same scan result,
same basenames, same output-file name, same file contents and hashes,
and the same collaborator availability.  The collaborator call
outcomes, clock and set-enumeration order may differ between the two
cycles. -/
def sameDirectory (e1 e2 : CycleEnv) : Prop :=
  e2.available = e1.available ∧ e2.jsonFiles = e1.jsonFiles ∧
  e2.nameOf = e1.nameOf ∧ e2.outputName = e1.outputName ∧
  e2.loadFile = e1.loadFile ∧ e2.hashOf = e1.hashOf

/-! ### Concrete cycle environments and states used as test vectors -/

/-- The initial state of a fresh agent: empty processed set, no
summary. -/
def st0 : AgentState := ⟨[], none⟩

/-- A baseline single-file environment: one readable file `a.json`
holding one item with an `ai_summary`, a healthy collaborator, identity
set enumeration. -/
def envW : CycleEnv :=
  { available := true
    jsonFiles := ["a.json"]
    nameOf := id
    outputName := "overall_summary.json"
    loadFile := fun _ => [{ ai_summary := some "x" }]
    hashOf := fun _ => some "h1"
    analysisCall := Except.ok (some "STANDARD")
    genCall := Except.ok (some "consolidated")
    enumSet := id
    nowStr := "2026-10-12 00:00:00"
    modelName := "deepseek-r1:8b"
    monitorDir := "./video_summaries" }

/-- The agent state after one `envW` cycle from the initial state. -/
def stW1 : AgentState := (process_new_files envW st0).state

/-- The overall summary produced by one `envW` cycle from the initial
state (checked by evaluation below). -/
def sW1 : OverallSummary :=
  { total_videos := 1
    total_files := 1
    overall_ai_description := "consolidated"
    processed_files := ["a.json"]
    file_hashes := [("a.json", "h1")]
    summary_metadata :=
      [("model_used", "deepseek-r1:8b"),
       ("last_updated", "2026-10-12 00:00:00"),
       ("monitor_directory", "./video_summaries")] }

/-- A second-cycle environment after `envW`: the directory now also
holds `b.json` with a fresh content hash. -/
def envW2 : CycleEnv :=
  { envW with
    jsonFiles := ["a.json", "b.json"]
    loadFile := fun p =>
      if p = "b.json" then [{ ai_summary := some "y" }]
      else [{ ai_summary := some "x" }]
    hashOf := fun p => if p = "b.json" then some "h2" else some "h1" }

/-- Variant of `envW` whose generation call fails (collaborator down at
generation time). -/
def envW8 : CycleEnv := { envW with genCall := Except.error () }

/-- Prior state for the C1 counterexample: one file processed, one video
summarized. -/
def sC1 : OverallSummary :=
  { total_videos := 1
    total_files := 1
    overall_ai_description := "prior"
    processed_files := ["a.json"]
    file_hashes := [("a.json", "ha")]
    summary_metadata := [] }

/-- Agent state corresponding to `sC1`. -/
def stC1 : AgentState := ⟨["a.json"], some sC1⟩

/-- Environment for the C1 counterexample: the only new file `b.json`
parses to a record with no summary, description or title, so it yields
zero extracted items. -/
def envC1 : CycleEnv :=
  { available := true
    jsonFiles := ["a.json", "b.json"]
    nameOf := id
    outputName := "overall_summary.json"
    loadFile := fun p => if p = "b.json" then [{ video_id := some "v7" }] else []
    hashOf := fun p => if p = "b.json" then some "hb" else some "ha"
    analysisCall := Except.ok (some "STANDARD")
    genCall := Except.ok (some "gen")
    enumSet := id
    nowStr := "t"
    modelName := "m"
    monitorDir := "d" }

/-- Hash oracle for the C2 counterexample: every read fails. -/
def hashOfC2 : String → Option String := fun _ => none

/-- State for the C2 counterexample: the recorded hash of `a.json` is
the empty string — exactly what `_get_file_hash` records when the read
at processing time fails (such a state is also accepted verbatim by
`_load_existing_summary` from disk). -/
def sC2 : OverallSummary :=
  { total_videos := 1
    total_files := 1
    overall_ai_description := "d"
    processed_files := ["a.json"]
    file_hashes := [("a.json", "")]
    summary_metadata := [] }

/-- Old and new persisted documents for the C3 counterexample. -/
def sC3old : OverallSummary :=
  { total_videos := 1
    total_files := 1
    overall_ai_description := "old"
    processed_files := ["a.json"]
    file_hashes := [("a.json", "ha")]
    summary_metadata := [] }

/-- The successor state whose save is interrupted in the C3
counterexample. -/
def sC3new : OverallSummary :=
  { total_videos := 2
    total_files := 2
    overall_ai_description := "new"
    processed_files := ["a.json", "b.json"]
    file_hashes := [("a.json", "ha"), ("b.json", "hb")]
    summary_metadata := [] }

/-- The on-disk document before the interrupted save. -/
def oldDiskC3 : String := serializeState sC3old

/-- The document the interrupted save was writing. -/
def newDiskC3 : String := serializeState sC3new

/-- Prior summary for the C6 counterexample: two files processed in the
order `a.json`, `b.json`. -/
def sC6 : OverallSummary :=
  { total_videos := 2
    total_files := 2
    overall_ai_description := "d"
    processed_files := ["a.json", "b.json"]
    file_hashes := [("a.json", "ha"), ("b.json", "hb")]
    summary_metadata := [] }

/-- Agent state corresponding to `sC6`. -/
def stC6 : AgentState := ⟨["a.json", "b.json"], some sC6⟩

/-- Environment for the C6 counterexample: one genuinely new file
`c.json`; the runtime happens to enumerate `self.processed_files` in
reversed insertion order — a legal iteration order for a Python set. -/
def envC6 : CycleEnv :=
  { available := true
    jsonFiles := ["a.json", "b.json", "c.json"]
    nameOf := id
    outputName := "overall_summary.json"
    loadFile := fun p => if p = "c.json" then [{ ai_summary := some "z" }] else []
    hashOf := fun p => if p = "c.json" then some "hc" else some "hx"
    analysisCall := Except.ok (some "BRIEF")
    genCall := Except.ok (some "gg")
    enumSet := List.reverse
    nowStr := "t"
    modelName := "m"
    monitorDir := "d" }

/-- Hash oracle for the C2 witness: only `a.json` is readable. -/
def hashOfW2 : String → Option String :=
  fun p => if p = "a.json" then some "h1" else none

/-- Variant of `envW` in which the file parses to nothing (malformed
JSON): `load_json_file` returns the empty list. -/
def envW1z : CycleEnv := { envW with loadFile := fun _ => [] }

/-- The overall summary after a second cycle (`envW2`) from `stW1`
(checked by evaluation). -/
def sW2 : OverallSummary :=
  { total_videos := 2
    total_files := 2
    overall_ai_description := "consolidated"
    processed_files := ["a.json", "b.json"]
    file_hashes := [("a.json", "h1"), ("b.json", "h2")]
    summary_metadata :=
      [("model_used", "deepseek-r1:8b"),
       ("last_updated", "2026-10-12 00:00:00"),
       ("monitor_directory", "./video_summaries")] }

/-! ### Basic lemmas about the embedded dict and set operations -/

theorem dictKeys_append (d1 d2 : List (String × String)) :
    dictKeys (d1 ++ d2) = dictKeys d1 ++ dictKeys d2 := by
  simp [dictKeys]

theorem dictInsert_of_not_mem (d : List (String × String)) (k v : String)
    (h : k ∉ dictKeys d) : dictInsert d k v = d ++ [(k, v)] := by
  simp [dictInsert, h]

theorem dictKeys_overwrite (d : List (String × String)) (k v : String) :
    dictKeys (d.map (fun kv => if kv.1 = k then (k, v) else kv)) = dictKeys d := by
  induction d with
  | nil => rfl
  | cons kv rest ih =>
    by_cases h : kv.1 = k <;>
      simp only [dictKeys, List.map_cons] at ih ⊢ <;>
      simp [h, ih]

theorem mem_dictKeys_dictInsert (d : List (String × String)) (k v a : String) :
    a ∈ dictKeys (dictInsert d k v) ↔ a ∈ dictKeys d ∨ a = k := by
  by_cases h : k ∈ dictKeys d
  · rw [dictInsert, if_pos h, dictKeys_overwrite]
    constructor
    · exact Or.inl
    · rintro (ha | rfl)
      · exact ha
      · exact h
  · rw [dictInsert_of_not_mem d k v h, dictKeys_append]
    simp [dictKeys]

theorem mem_dictKeys_dictUpdate (d1 d2 : List (String × String)) (a : String) :
    a ∈ dictKeys (dictUpdate d1 d2) ↔ a ∈ dictKeys d1 ∨ a ∈ dictKeys d2 := by
  induction d2 generalizing d1 with
  | nil => simp [dictUpdate, dictKeys]
  | cons kv rest ih =>
    rw [dictUpdate, ih, mem_dictKeys_dictInsert]
    simp only [dictKeys, List.map_cons, List.mem_cons]
    tauto

theorem dictUpdate_disjoint (d1 d2 : List (String × String))
    (hnd : (dictKeys d2).Nodup) (hdisj : ∀ k ∈ dictKeys d2, k ∉ dictKeys d1) :
    dictUpdate d1 d2 = d1 ++ d2 := by
  induction d2 generalizing d1 with
  | nil => simp [dictUpdate]
  | cons kv rest ih =>
    have hk : kv.1 ∉ dictKeys d1 := hdisj kv.1 (by simp [dictKeys])
    have hnd2 : (dictKeys (kv :: rest)).Nodup := hnd
    simp only [dictKeys, List.map_cons, List.nodup_cons] at hnd2
    rw [dictUpdate, dictInsert_of_not_mem d1 kv.1 kv.2 hk,
      ih (d1 ++ [(kv.1, kv.2)]) hnd2.2]
    · simp
    · intro k hkr
      rw [dictKeys_append]
      simp only [List.mem_append]
      rintro (hkd1 | hkone)
      · exact hdisj k (by simp [dictKeys]; right; simpa [dictKeys] using hkr) hkd1
      · simp only [dictKeys, List.map_cons, List.map_nil, List.mem_singleton] at hkone
        exact hnd2.1 (hkone ▸ hkr)

theorem setUpdate_cons (s : List String) (p : String) (rest : List String) :
    setUpdate s (p :: rest) = setUpdate (if p ∈ s then s else s ++ [p]) rest := rfl

theorem mem_setUpdate (s ps : List String) (q : String) :
    q ∈ setUpdate s ps ↔ q ∈ s ∨ q ∈ ps := by
  induction ps generalizing s with
  | nil => simp [setUpdate]
  | cons p rest ih =>
    rw [setUpdate_cons, ih]
    by_cases h : p ∈ s
    · rw [if_pos h]
      simp only [List.mem_cons]
      constructor
      · rintro (hs | hr)
        · exact Or.inl hs
        · exact Or.inr (Or.inr hr)
      · rintro (hs | rfl | hr)
        · exact Or.inl hs
        · exact Or.inl h
        · exact Or.inr hr
    · rw [if_neg h]
      simp only [List.mem_append, List.mem_singleton, List.mem_cons]
      tauto

theorem setUpdate_fresh (s ps : List String) (hnd : ps.Nodup)
    (hfresh : ∀ p ∈ ps, p ∉ s) : setUpdate s ps = s ++ ps := by
  induction ps generalizing s with
  | nil => simp [setUpdate]
  | cons p rest ih =>
    have hp : p ∉ s := hfresh p (by simp)
    have hnd2 := List.nodup_cons.mp hnd
    have hfresh2 : ∀ q ∈ rest, q ∉ s ++ [p] := by
      intro q hq
      simp only [List.mem_append, List.mem_singleton]
      rintro (hqs | rfl)
      · exact hfresh q (by simp [hq]) hqs
      · exact hnd2.1 hq
    rw [setUpdate_cons, if_neg hp, ih (s ++ [p]) hnd2.2 hfresh2]
    simp

/-! ### Lemmas about the per-file loop -/

theorem extract_ai_summaries_nil : extract_ai_summaries [] = [] := rfl

theorem extractsAll_eq_nil (L : String → List VideoSummary) (ps : List String)
    (h : ∀ p ∈ ps, extract_ai_summaries (L p) = []) : extractsAll L ps = [] := by
  induction ps with
  | nil => rfl
  | cons p rest ih =>
    rw [extractsAll, h p (by simp), List.nil_append]
    exact ih (fun q hq => h q (by simp [hq]))

theorem collectFiles_avs (L : String → List VideoSummary)
    (H : String → Option String) (ps : List String) (acc : Collected) :
    (collectFiles L H ps acc).avs = acc.avs ++ extractsAll L ps := by
  induction ps generalizing acc with
  | nil => simp [collectFiles, extractsAll]
  | cons p rest ih =>
    by_cases h : L p = [] <;>
      simp [collectFiles, h, ih, extractsAll, extract_ai_summaries_nil]

theorem collectFiles_ppaths (L : String → List VideoSummary)
    (H : String → Option String) (ps : List String) (acc : Collected) :
    (collectFiles L H ps acc).ppaths =
      acc.ppaths ++ ps.filter (fun p => !(L p).isEmpty) := by
  induction ps generalizing acc with
  | nil => simp [collectFiles]
  | cons p rest ih =>
    by_cases h : L p = [] <;>
      simp [collectFiles, h, ih, List.filter_cons, List.isEmpty_iff]

theorem collectFiles_fhashes (L : String → List VideoSummary)
    (H : String → Option String) (ps : List String) (acc : Collected)
    (hnd : ps.Nodup) (hfresh : ∀ p ∈ ps, p ∉ dictKeys acc.fhashes) :
    (collectFiles L H ps acc).fhashes =
      acc.fhashes ++ (ps.filter (fun p => !(L p).isEmpty)).map
        (fun p => (p, _get_file_hash H p)) := by
  induction ps generalizing acc with
  | nil => simp [collectFiles]
  | cons p rest ih =>
    have hnd2 := List.nodup_cons.mp hnd
    by_cases h : L p = []
    · have hstep : collectFiles L H (p :: rest) acc = collectFiles L H rest acc := by
        simp only [collectFiles]
        rw [if_neg (by simp [h])]
      rw [hstep, ih acc hnd2.2 (fun q hq => hfresh q (by simp [hq]))]
      simp [List.filter_cons, h]
    · have hstep : collectFiles L H (p :: rest) acc =
          collectFiles L H rest
            ⟨acc.avs ++ extract_ai_summaries (L p), acc.ppaths ++ [p],
             dictInsert acc.fhashes p (_get_file_hash H p)⟩ := by
        simp only [collectFiles]
        rw [if_pos h]
      have hpf : p ∉ dictKeys acc.fhashes := hfresh p (by simp)
      have hfresh2 : ∀ q ∈ rest,
          q ∉ dictKeys (dictInsert acc.fhashes p (_get_file_hash H p)) := by
        intro q hq hmem
        rcases (mem_dictKeys_dictInsert _ _ _ _).mp hmem with hqa | rfl
        · exact hfresh q (by simp [hq]) hqa
        · exact hnd2.1 hq
      rw [hstep, ih _ hnd2.2 hfresh2, dictInsert_of_not_mem _ _ _ hpf]
      simp [List.filter_cons, h, List.isEmpty_iff, List.append_assoc]

theorem collectFiles_ppaths_sub_keys (L : String → List VideoSummary)
    (H : String → Option String) (ps : List String) (acc : Collected)
    (hacc : ∀ p ∈ acc.ppaths, p ∈ dictKeys acc.fhashes) :
    ∀ p ∈ (collectFiles L H ps acc).ppaths,
      p ∈ dictKeys (collectFiles L H ps acc).fhashes := by
  induction ps generalizing acc with
  | nil => simpa [collectFiles] using hacc
  | cons p rest ih =>
    by_cases h : L p = []
    · rw [collectFiles, if_neg (by simp [h])]
      exact ih acc hacc
    · rw [collectFiles, if_pos (by simp [h])]
      apply ih
      intro q hq
      simp only [List.mem_append, List.mem_singleton] at hq
      rw [mem_dictKeys_dictInsert]
      rcases hq with hq | rfl
      · exact Or.inl (hacc q hq)
      · exact Or.inr rfl

/-! ### Lemmas about the new-file filter and the cycle branches -/

theorem mem_newFiles (env : CycleEnv) (st : AgentState) (p : String) :
    p ∈ newFiles env st ↔
      p ∈ env.jsonFiles ∧ env.nameOf p ≠ env.outputName ∧
      p ∉ st.processed_files ∧
      _is_file_processed env.hashOf st.processed_files st.overall_summary p
        = false := by
  simp [newFiles, List.mem_filter, and_assoc]

theorem newFiles_nodup (env : CycleEnv) (st : AgentState)
    (h : env.jsonFiles.Nodup) : (newFiles env st).Nodup :=
  h.filter _

theorem pnf_unavailable (env : CycleEnv) (st : AgentState)
    (h : env.available = false) :
    process_new_files env st = ⟨st, false, false, false⟩ := by
  simp [process_new_files, h]

theorem pnf_noNew (env : CycleEnv) (st : AgentState)
    (h : env.available = true) (h2 : newFiles env st = []) :
    process_new_files env st = ⟨st, true, false, false⟩ := by
  simp [process_new_files, h, h2]

theorem pnf_noItems (env : CycleEnv) (st : AgentState)
    (h : env.available = true) (h2 : newFiles env st ≠ [])
    (h3 : (cycleCollected env st).avs = []) :
    process_new_files env st = ⟨st, true, false, false⟩ := by
  simp [process_new_files, h, h2, h3]

theorem pnf_commit (env : CycleEnv) (st : AgentState)
    (h : env.available = true) (h2 : newFiles env st ≠ [])
    (h3 : (cycleCollected env st).avs ≠ []) :
    process_new_files env st =
      ⟨⟨setUpdate st.processed_files (cycleCollected env st).ppaths,
        some
          { total_videos := ((cycleCollected env st).avs.length : Int)
            total_files := ((cycleCollected env st).ppaths.length : Int) +
              priorTotalFiles st.overall_summary
            overall_ai_description :=
              generate_summary env.analysisCall env.genCall
            processed_files :=
              env.enumSet st.processed_files ++ (cycleCollected env st).ppaths
            file_hashes :=
              dictUpdate (priorHashes st.overall_summary)
                (cycleCollected env st).fhashes
            summary_metadata :=
              [("model_used", env.modelName), ("last_updated", env.nowStr),
               ("monitor_directory", env.monitorDir)] }⟩,
        true, true, true⟩ := by
  simp [process_new_files, h, h2, h3]

theorem pnf_cases (env : CycleEnv) (st : AgentState) :
    (process_new_files env st).state = st ∨
    (env.available = true ∧ newFiles env st ≠ [] ∧
      (cycleCollected env st).avs ≠ [] ∧
      (process_new_files env st).state =
        ⟨setUpdate st.processed_files (cycleCollected env st).ppaths,
         some
          { total_videos := ((cycleCollected env st).avs.length : Int)
            total_files := ((cycleCollected env st).ppaths.length : Int) +
              priorTotalFiles st.overall_summary
            overall_ai_description :=
              generate_summary env.analysisCall env.genCall
            processed_files :=
              env.enumSet st.processed_files ++ (cycleCollected env st).ppaths
            file_hashes :=
              dictUpdate (priorHashes st.overall_summary)
                (cycleCollected env st).fhashes
            summary_metadata :=
              [("model_used", env.modelName), ("last_updated", env.nowStr),
               ("monitor_directory", env.monitorDir)] }⟩) := by
  by_cases h : env.available = true
  · by_cases h2 : newFiles env st = []
    · left; rw [pnf_noNew env st h h2]
    · by_cases h3 : (cycleCollected env st).avs = []
      · left; rw [pnf_noItems env st h h2 h3]
      · right
        exact ⟨h, h2, h3, by rw [pnf_commit env st h h2 h3]⟩
  · left
    rw [pnf_unavailable env st (Bool.not_eq_true _ ▸ h)]

/-! ### Characterization of one cycle's accumulators -/

theorem newFiles_fresh (env : CycleEnv) (st : AgentState) :
    ∀ p ∈ newFiles env st, p ∉ st.processed_files :=
  fun p hp => ((mem_newFiles env st p).mp hp).2.2.1

theorem cycleCollected_ppaths (env : CycleEnv) (st : AgentState) :
    (cycleCollected env st).ppaths =
      (newFiles env st).filter (fun p => !(env.loadFile p).isEmpty) := by
  rw [cycleCollected, collectFiles_ppaths]
  simp

theorem cycleCollected_avs (env : CycleEnv) (st : AgentState) :
    (cycleCollected env st).avs =
      placeholderSummaries st.overall_summary ++
        extractsAll env.loadFile (newFiles env st) := by
  rw [cycleCollected, collectFiles_avs]

theorem cycleCollected_fhashes (env : CycleEnv) (st : AgentState)
    (hnd : env.jsonFiles.Nodup) :
    (cycleCollected env st).fhashes =
      ((newFiles env st).filter (fun p => !(env.loadFile p).isEmpty)).map
        (fun p => (p, _get_file_hash env.hashOf p)) := by
  rw [cycleCollected,
    collectFiles_fhashes _ _ _ _ (newFiles_nodup env st hnd) (by simp [dictKeys])]
  simp

theorem cycle_ppaths_nodup (env : CycleEnv) (st : AgentState)
    (hnd : env.jsonFiles.Nodup) : (cycleCollected env st).ppaths.Nodup := by
  rw [cycleCollected_ppaths]
  exact (newFiles_nodup env st hnd).filter _

theorem cycle_ppaths_fresh (env : CycleEnv) (st : AgentState) :
    ∀ p ∈ (cycleCollected env st).ppaths, p ∉ st.processed_files := by
  rw [cycleCollected_ppaths]
  intro p hp
  exact newFiles_fresh env st p (List.mem_of_mem_filter hp)

theorem cycle_keys_eq_ppaths (env : CycleEnv) (st : AgentState)
    (hnd : env.jsonFiles.Nodup) :
    dictKeys (cycleCollected env st).fhashes = (cycleCollected env st).ppaths := by
  rw [cycleCollected_fhashes env st hnd, cycleCollected_ppaths]
  rw [dictKeys, List.map_map]
  exact List.map_id _

/-! ### Preservation of the state invariant -/

theorem inv_preserved (env : CycleEnv) (st : AgentState) (henv : EnvOK env)
    (hinv : Inv st) : Inv (process_new_files env st).state := by
  rcases pnf_cases env st with hsame | ⟨hav, hnf, havs, hcommit⟩
  · rw [hsame]; exact hinv
  · rw [hcommit]
    obtain ⟨hperm_enum, hjson⟩ := henv
    obtain ⟨hnodup, hrest⟩ := hinv
    have hppnd : (cycleCollected env st).ppaths.Nodup :=
      cycle_ppaths_nodup env st hjson
    have hppfresh : ∀ p ∈ (cycleCollected env st).ppaths,
        p ∉ st.processed_files := cycle_ppaths_fresh env st
    have hset : setUpdate st.processed_files (cycleCollected env st).ppaths =
        st.processed_files ++ (cycleCollected env st).ppaths :=
      setUpdate_fresh _ _ hppnd hppfresh
    refine ⟨?_, ?_, ?_, ?_, ?_⟩
    · rw [hset]
      exact hnodup.append hppnd (fun a ha hb => hppfresh a hb ha)
    · rw [hset]
      exact List.Perm.append_right _ ((hperm_enum st.processed_files).symm)
    · rw [List.length_append, (hperm_enum st.processed_files).length_eq]
      cases hos : st.overall_summary with
      | none =>
        rw [hos] at hrest
        rw [hrest]
        simp [priorTotalFiles]
      | some s0 =>
        rw [hos] at hrest
        obtain ⟨hperm0, htot0, _, _⟩ := hrest
        rw [priorTotalFiles, htot0, ← hperm0.length_eq]
        push_cast
        ring
    · exact Int.natCast_nonneg _
    · intro k hk
      rcases (mem_dictKeys_dictUpdate _ _ k).mp hk with hprior | hnew
      · rw [List.mem_append]
        left
        cases hos : st.overall_summary with
        | none =>
          rw [hos] at hprior
          simp [priorHashes, dictKeys] at hprior
        | some s0 =>
          rw [hos] at hrest hprior
          obtain ⟨hperm0, _, _, hkeys0⟩ := hrest
          have : k ∈ st.processed_files :=
            hperm0.mem_iff.mpr (hkeys0 k hprior)
          exact (hperm_enum st.processed_files).mem_iff.mpr this
      · rw [cycle_keys_eq_ppaths env st hjson] at hnew
        exact List.mem_append.mpr (Or.inr hnew)

theorem reachable_inv (st : AgentState) (h : Reachable st) : Inv st := by
  induction h with
  | init => exact ⟨List.nodup_nil, rfl⟩
  | step env st1 henv _ ih => exact inv_preserved env st1 henv ih

theorem reaches_reachable (st st1 : AgentState) (h : Reaches st st1) :
    Reachable st → Reachable st1 := by
  induction h with
  | refl _ => exact fun h0 => h0
  | step env stA stB henv _ ih =>
    exact fun h0 => Reachable.step env stB henv (ih h0)

/-! ### Per-cycle monotonicity of the bookkeeping measures -/

theorem step_mono (env : CycleEnv) (st : AgentState) (henv : EnvOK env)
    (hinv : Inv st) :
    totalFilesOf st ≤ totalFilesOf (process_new_files env st).state ∧
    pathCountOf st ≤ pathCountOf (process_new_files env st).state ∧
    ∀ k ∈ hashKeysOf st, k ∈ hashKeysOf (process_new_files env st).state := by
  rcases pnf_cases env st with hsame | ⟨hav, hnf, havs, hcommit⟩
  · rw [hsame]
    exact ⟨le_refl _, le_refl _, fun k hk => hk⟩
  · rw [hcommit]
    obtain ⟨hperm_enum, hjson⟩ := henv
    obtain ⟨hnodup, hrest⟩ := hinv
    refine ⟨?_, ?_, ?_⟩
    · show totalFilesOf st ≤ ((cycleCollected env st).ppaths.length : Int) +
        priorTotalFiles st.overall_summary
      rw [totalFilesOf]
      exact le_add_of_nonneg_left (Int.natCast_nonneg _)
    · show pathCountOf st ≤
        (env.enumSet st.processed_files ++ (cycleCollected env st).ppaths).length
      rw [List.length_append, (hperm_enum st.processed_files).length_eq]
      cases hos : st.overall_summary with
      | none => simp [pathCountOf, hos]
      | some s0 =>
        rw [hos] at hrest
        obtain ⟨hperm0, _, _, _⟩ := hrest
        simp only [pathCountOf, hos]
        rw [← hperm0.length_eq]
        exact Nat.le_add_right _ _
    · intro k hk
      show k ∈ dictKeys (dictUpdate (priorHashes st.overall_summary)
        (cycleCollected env st).fhashes)
      exact (mem_dictKeys_dictUpdate _ _ k).mpr (Or.inl hk)

/-! ### Further helper lemmas used by the claim theorems -/

theorem find?_first (l : List String) (p : String → Bool) :
    ∀ (i : Nat) (hi : i < l.length), p (l.get ⟨i, hi⟩) = true →
      (∀ j (hj : j < i), p (l.get ⟨j, Nat.lt_trans hj hi⟩) = false) →
      l.find? p = some (l.get ⟨i, hi⟩) := by
  induction l with
  | nil => intro i hi; exact absurd hi (Nat.not_lt_zero i)
  | cons a tl ih =>
    intro i hi hp hfirst
    cases i with
    | zero =>
      rw [List.find?_cons]
      simp only [List.get] at hp
      rw [hp]
      rfl
    | succ n =>
      have ha : p a = false := hfirst 0 (Nat.succ_pos n)
      rw [List.find?_cons, ha]
      exact ih n (Nat.lt_of_succ_lt_succ hi) hp
        (fun j hj => hfirst (j + 1) (Nat.succ_lt_succ hj))

theorem takeChars_length (s : String) : takeChars s.toList.length s = s := by
  rw [takeChars, List.take_length]
  rfl

theorem generate_summary_fail (a : OllamaCall) :
    generate_summary a (Except.error ()) = genFailureSentinel := rfl

theorem is_processed_true_cases (H : String → Option String) (pf : List String)
    (overall : Option OverallSummary) (p : String)
    (h : _is_file_processed H pf overall p = true) :
    p ∈ pf ∨ ∃ s, overall = some s ∧ s.file_hashes ≠ [] ∧
      _get_file_hash H p ∈ dictValues s.file_hashes := by
  by_cases hpf : p ∈ pf
  · exact Or.inl hpf
  · cases overall with
    | none =>
      rw [_is_file_processed.eq_def, if_neg hpf] at h
      simp at h
    | some s =>
      rw [_is_file_processed.eq_def, if_neg hpf] at h
      have h2 : (if s.file_hashes ≠ [] then
          decide (_get_file_hash H p ∈ dictValues s.file_hashes)
        else false) = true := h
      by_cases hfh : s.file_hashes ≠ []
      · rw [if_pos hfh] at h2
        exact Or.inr ⟨s, rfl, hfh, of_decide_eq_true h2⟩
      · rw [if_neg hfh] at h2
        simp at h2

theorem is_processed_of_hash (H : String → Option String) (pf : List String)
    (s : OverallSummary) (p : String) (hfh : s.file_hashes ≠ [])
    (hv : _get_file_hash H p ∈ dictValues s.file_hashes) :
    _is_file_processed H pf (some s) p = true := by
  by_cases hpf : p ∈ pf
  · rw [_is_file_processed.eq_def, if_pos hpf]
  · rw [_is_file_processed.eq_def, if_neg hpf]
    show (if s.file_hashes ≠ [] then
        decide (_get_file_hash H p ∈ dictValues s.file_hashes)
      else false) = true
    rw [if_pos hfh]
    exact decide_eq_true hv

/-! ### The claims -/

/-- C4 (code_bug): the return annotation `List[VideoSummaryf]` of
`ContinuousVideoAgent.load_json_file` (continuous_agent.py, line 308)
names an identifier that is bound neither in the module namespace nor
in the builtins when the class body executes at import time (annotation
evaluation is eager for the Python versions declared in setup.py), so
evaluating the annotation raises `NameError` and the class definition —
hence every agent operation — is unreachable.  The class that does
exist is named `VideoSummary`. -/
theorem C4_undefined_name :
    resolveName "VideoSummaryf" =
      Except.error "NameError: name VideoSummaryf is not defined" ∧
    resolveName "VideoSummary" = Except.ok () ∧
    decide ("VideoSummaryf" ∈ moduleNamesAtClassBody) = false ∧
    decide ("VideoSummaryf" ∈ builtinNames) = false := by
  refine ⟨rfl, rfl, by decide, by decide⟩

/-- C9 (confirmed): `analyze_content_complexity` returns the first tier
keyword, scanning the fixed list `BRIEF, STANDARD, DETAILED, EXTENSIVE`
in increasing-detail order, that occurs in the (uppercased) raw
classifier output; when the classification call fails, or when no
keyword occurs, it returns `STANDARD`, which is the second tier
(index 1) of the list. -/
theorem C9_detail_level_selection (r : String) (i : Nat)
    (hi : i < detail_levels.length)
    (hcontains : containsLevel r (detail_levels.get ⟨i, hi⟩) = true)
    (hfirst : ∀ j (hj : j < i),
      containsLevel r (detail_levels.get ⟨j, Nat.lt_trans hj hi⟩) = false) :
    analyze_content_complexity (Except.ok (some r)) = detail_levels.get ⟨i, hi⟩ ∧
    analyze_content_complexity (Except.error ()) = "STANDARD" ∧
    (∀ s : String, (∀ lvl ∈ detail_levels, containsLevel s lvl = false) →
      analyze_content_complexity (Except.ok (some s)) = "STANDARD") ∧
    detail_levels.get? 1 = some "STANDARD" := by
  refine ⟨?_, rfl, ?_, rfl⟩
  · have h1 : analyze_content_complexity (Except.ok (some r)) =
        match detail_levels.find? (fun lvl => containsLevel r lvl) with
        | some lvl => lvl
        | none => "STANDARD" := rfl
    rw [h1, find?_first detail_levels _ i hi hcontains hfirst]
  · intro s hnone
    have h1 : analyze_content_complexity (Except.ok (some s)) =
        match detail_levels.find? (fun lvl => containsLevel s lvl) with
        | some lvl => lvl
        | none => "STANDARD" := rfl
    rw [h1, List.find?_eq_none.mpr (fun x hx => by simp [hnone x hx])]

/-- Witness for C9: concrete applications of the theorem — a raw output
containing both `BRIEF` and `DETAILED` yields `BRIEF` (the first tier in
scan order), and a failed call yields `STANDARD`. -/
theorem C9_witness :
    analyze_content_complexity (Except.ok (some "use BRIEF or DETAILED")) =
      "BRIEF" ∧
    analyze_content_complexity (Except.error ()) = "STANDARD" := by
  have h := C9_detail_level_selection "use BRIEF or DETAILED" 0 (by decide)
    (by decide) (fun j hj => absurd hj (Nat.not_lt_zero j))
  exact ⟨h.1, h.2.1⟩

/-- C2 (corrected, counterexample): with a recorded hash value equal to
the empty string — exactly what `_get_file_hash` records when the read
fails at processing time — an unreadable file at an unknown path is
reported as processed, because the empty-string failure sentinel of
`_get_file_hash` compares equal to the recorded empty value. -/
theorem C2_counterexample :
    hashOfC2 "b.json" = none ∧
    decide ("b.json" ∈ sC2.processed_files) = false ∧
    _is_file_processed hashOfC2 ["a.json"] (some sC2) "b.json" = true := by
  refine ⟨rfl, by decide, by decide⟩

/-- C2 (amended): provided the empty string is not among the recorded
hash values, `_is_file_processed` returns true exactly when the path is
in the known path list or the file reads successfully to a hash equal
to some recorded value, and in particular an unreadable file at an
unknown path is reported as unprocessed. -/
theorem C2_hash_check (hashOf : String → Option String) (pf : List String)
    (overall : Option OverallSummary) (p : String)
    (hclean : "" ∉ recordedHashValues overall) :
    (_is_file_processed hashOf pf overall p = true ↔
      p ∈ pf ∨ ∃ h, hashOf p = some h ∧ h ∈ recordedHashValues overall) ∧
    (hashOf p = none → p ∉ pf →
      _is_file_processed hashOf pf overall p = false) := by
  constructor
  · constructor
    · intro hcode
      rcases is_processed_true_cases hashOf pf overall p hcode with
        hpf | ⟨s, hos, hfh, hv⟩
      · exact Or.inl hpf
      · right
        subst hos
        cases hho : hashOf p with
        | some h =>
          refine ⟨h, rfl, ?_⟩
          rw [_get_file_hash.eq_def, hho] at hv
          exact hv
        | none =>
          exfalso
          rw [_get_file_hash.eq_def, hho] at hv
          exact hclean hv
    · rintro (hpf | ⟨h, hho, hv⟩)
      · rw [_is_file_processed.eq_def, if_pos hpf]
      · cases overall with
        | none => simp [recordedHashValues] at hv
        | some s =>
          refine is_processed_of_hash hashOf pf s p ?_ ?_
          · intro hnil
            rw [recordedHashValues] at hv
            rw [hnil] at hv
            simp [dictValues] at hv
          · rw [_get_file_hash.eq_def, hho]
            exact hv
  · intro hnone hpf
    cases overall with
    | none => rw [_is_file_processed.eq_def, if_neg hpf]
    | some s =>
      rw [_is_file_processed.eq_def, if_neg hpf]
      show (if s.file_hashes ≠ [] then
          decide (_get_file_hash hashOf p ∈ dictValues s.file_hashes)
        else false) = false
      by_cases hfh : s.file_hashes ≠ []
      · rw [if_pos hfh]
        apply decide_eq_false
        intro hv
        rw [_get_file_hash.eq_def, hnone] at hv
        exact hclean hv
      · rw [if_neg hfh]

/-- Witness for C2: concrete application of the amended theorem — with
the clean recorded hashes of `sW1`, the unreadable unknown path
`new.json` is reported as unprocessed. -/
theorem C2_witness :
    _is_file_processed hashOfW2 ["a.json"] (some sW1) "new.json" = false :=
  (C2_hash_check hashOfW2 ["a.json"] (some sW1) "new.json" (by decide)).2
    (by decide) (by decide)

set_option maxRecDepth 4000 in
/-- C3 (corrected, counterexample): `_save_summary` opens the output
file in truncating write mode and streams the document into it, so the
crash point just after the open leaves an empty file on disk — a state
that is neither the previous document nor the new one.  The write is
not atomic. -/
theorem C3_counterexample :
    takeChars 0 newDiskC3 ∈ saveWriteSteps oldDiskC3 newDiskC3 ∧
    decide (takeChars 0 newDiskC3 = oldDiskC3) = false ∧
    decide (takeChars 0 newDiskC3 = newDiskC3) = false := by
  refine ⟨?_, by decide, by decide⟩
  rw [saveWriteSteps]
  apply List.mem_cons_of_mem
  exact List.mem_map.mpr ⟨0, List.mem_range.mpr (Nat.succ_pos _), rfl⟩

/-- C3 (amended): a completed `_save_summary` writes the full serialized
state (the final write step holds exactly `serializeState s`), but the
write is in place: any crash point leaves either the old document or
some — possibly strict — front portion of the new document on disk. -/
theorem C3_save_prefix_model (s : OverallSummary) (old c : String)
    (hc : c ∈ saveWriteSteps old (serializeState s)) :
    (c = old ∨ ∃ k, k ≤ (serializeState s).toList.length ∧
      c = takeChars k (serializeState s)) ∧
    (saveWriteSteps old (serializeState s)).get?
        ((serializeState s).toList.length + 1) =
      some (_save_summary old (some s)) := by
  constructor
  · rw [saveWriteSteps] at hc
    rcases List.mem_cons.mp hc with rfl | hmem
    · exact Or.inl rfl
    · right
      rcases List.mem_map.mp hmem with ⟨k, hk, rfl⟩
      exact ⟨k, Nat.lt_succ_iff.mp (List.mem_range.mp hk), rfl⟩
  · rw [saveWriteSteps]
    rw [List.get?_cons_succ, List.get?_map,
      List.get?_range (Nat.lt_succ_self _)]
    simp only [Option.map_some']
    rw [takeChars_length]
    rfl

/-- Witness for C3: concrete application of the amended theorem — the
completed save of `sC3old` over its own serialization ends with the
full document on disk. -/
theorem C3_witness :
    (saveWriteSteps oldDiskC3 (serializeState sC3old)).get?
        ((serializeState sC3old).toList.length + 1) =
      some (_save_summary oldDiskC3 (some sC3old)) :=
  (C3_save_prefix_model sC3old oldDiskC3 oldDiskC3
    (by rw [saveWriteSteps]; exact List.mem_cons_self _ _)).2

/-- C1 (corrected, counterexample): with a prior non-empty summary
(`total_videos = 1`) and one new file that parses but yields zero
extracted items, the cycle still reaches generation — the placeholder
entries manufactured from the prior state make `all_video_summaries`
non-empty — and the accumulated state is mutated. -/
theorem C1_counterexample :
    newFiles envC1 stC1 = ["b.json"] ∧
    extract_ai_summaries (envC1.loadFile "b.json") = [] ∧
    (process_new_files envC1 stC1).generateInvoked = true ∧
    decide ((process_new_files envC1 stC1).state = stC1) = false := by
  refine ⟨by decide, by decide, by decide, by decide⟩

/-- C1 (amended): when the prior state contributes no placeholder
entries — no prior summary exists, or its `total_videos` is zero — a
cycle whose new files collectively yield zero extracted items neither
invokes `generate_summary` nor mutates the state nor writes the
persisted file. -/
theorem C1_zero_items_frame (env : CycleEnv) (st : AgentState)
    (hplaceholders : placeholderSummaries st.overall_summary = [])
    (hzero : ∀ p ∈ newFiles env st,
      extract_ai_summaries (env.loadFile p) = []) :
    (process_new_files env st).state = st ∧
    (process_new_files env st).generateInvoked = false ∧
    (process_new_files env st).saved = false := by
  have havs : (cycleCollected env st).avs = [] := by
    rw [cycleCollected_avs, hplaceholders, List.nil_append]
    exact extractsAll_eq_nil _ _ hzero
  by_cases hav : env.available = true
  · by_cases hnf : newFiles env st = []
    · rw [pnf_noNew env st hav hnf]
      exact ⟨rfl, rfl, rfl⟩
    · rw [pnf_noItems env st hav hnf havs]
      exact ⟨rfl, rfl, rfl⟩
  · rw [pnf_unavailable env st (by revert hav; cases env.available <;> simp)]
    exact ⟨rfl, rfl, rfl⟩

/-- Witness for C1: concrete application of the amended theorem — a
fresh agent scanning one malformed file performs no generation, no save
and no state change. -/
theorem C1_witness :
    (process_new_files envW1z st0).state = st0 ∧
    (process_new_files envW1z st0).generateInvoked = false ∧
    (process_new_files envW1z st0).saved = false :=
  C1_zero_items_frame envW1z st0 rfl (fun _ _ => rfl)

/-- C5 (confirmed): in every reachable state produced by cycles from the
initial (absent) state, the persisted summary satisfies
`total_files = len(processed_files)` and every key of `file_hashes` is
a member of `processed_files`. -/
theorem C5_state_invariant (st : AgentState) (h : Reachable st)
    (s : OverallSummary) (hs : st.overall_summary = some s) :
    s.total_files = (s.processed_files.length : Int) ∧
    ∀ k ∈ dictKeys s.file_hashes, k ∈ s.processed_files := by
  obtain ⟨_, hrest⟩ := reachable_inv st h
  rw [hs] at hrest
  exact ⟨hrest.2.1, hrest.2.2.2⟩

/-- Witness for C5: the invariant holds concretely in the state reached
by one `envW` cycle from the initial state. -/
theorem C5_witness :
    sW1.total_files = (sW1.processed_files.length : Int) ∧
    "a.json" ∈ sW1.processed_files := by
  have hreach : Reachable stW1 :=
    Reachable.step envW st0 ⟨fun l => List.Perm.refl l, by decide⟩ Reachable.init
  have h := C5_state_invariant stW1 hreach sW1 (by decide)
  exact ⟨h.1, h.2 "a.json" (by decide)⟩

/-- C6 (corrected, counterexample): the new persisted path list is
`list(self.processed_files) + newly_processed`, and `list` of a Python
set may enumerate its elements in any order — here the reversed
insertion order, a legal enumeration (`envC6.enumSet` is
`List.reverse`, a permutation).  The resulting list does not have the
old list as a front segment, so the path list is not an append-only
ordered sequence. -/
theorem C6_counterexample :
    ((process_new_files envC6 stC6).state.overall_summary.map
        OverallSummary.processed_files) =
      some ["b.json", "a.json", "c.json"] ∧
    stC6.overall_summary.map OverallSummary.processed_files =
      some ["a.json", "b.json"] ∧
    decide ((["b.json", "a.json", "c.json"] : List String).take 2 =
      ["a.json", "b.json"]) = false := by
  refine ⟨by decide, by decide, by decide⟩

/-- The reversed enumeration used by `envC6` is a permutation, so
`envC6` is a valid cycle environment. -/
theorem envC6_ok : EnvOK envC6 :=
  ⟨fun l => List.reverse_perm l, by decide⟩

/-- The counterexample's starting state satisfies the structural state
invariant (it is exactly what two earlier single-file cycles with
identity enumeration produce). -/
theorem stC6_inv : Inv stC6 :=
  ⟨by decide, by decide, by decide, by decide, by decide⟩

/-- C6 (amended): across a committing cycle the processed paths only
grow — every path of the old summary is a member of the new summary's
list — and the new list is exactly some enumeration of the old
processed set followed by the cycle's newly processed paths, in
processing order.  The old list need not be a front segment of the new
one, because the enumeration order of the Python set is unspecified;
the old state value itself is never mutated (a fresh summary object is
constructed). -/
theorem C6_membership_append (env : CycleEnv) (st : AgentState)
    (s s1 : OverallSummary) (henv : EnvOK env) (hinv : Inv st)
    (hs : st.overall_summary = some s)
    (hs1 : (process_new_files env st).state.overall_summary = some s1) :
    (∀ p ∈ s.processed_files, p ∈ s1.processed_files) ∧
    (s1 = s ∨ s1.processed_files =
      env.enumSet st.processed_files ++ (cycleCollected env st).ppaths) := by
  rcases pnf_cases env st with hsame | ⟨hav, hnf, havs, hcommit⟩
  · rw [hsame, hs] at hs1
    obtain rfl := Option.some.inj hs1
    exact ⟨fun p hp => hp, Or.inl rfl⟩
  · rw [hcommit] at hs1
    obtain rfl := Option.some.inj hs1
    obtain ⟨hnodup, hrest⟩ := hinv
    rw [hs] at hrest
    obtain ⟨hperm0, _, _, _⟩ := hrest
    constructor
    · intro p hp
      have hpst : p ∈ st.processed_files := hperm0.mem_iff.mpr hp
      have hpen : p ∈ env.enumSet st.processed_files :=
        (henv.1 st.processed_files).mem_iff.mpr hpst
      exact List.mem_append.mpr (Or.inl hpen)
    · exact Or.inr rfl

/-- Witness for C6: concrete application of the amended theorem to the
second cycle `envW2` from `stW1` — the previously recorded path
`a.json` is still present afterwards. -/
theorem C6_witness : "a.json" ∈ sW2.processed_files := by
  have hreach : Reachable stW1 :=
    Reachable.step envW st0 ⟨fun l => List.Perm.refl l, by decide⟩ Reachable.init
  have h := C6_membership_append envW2 stW1 sW1 sW2
    ⟨fun l => List.Perm.refl l, by decide⟩ (reachable_inv stW1 hreach)
    (by decide) (by decide)
  exact h.1 "a.json" (by decide)

/-- C7 (confirmed): across any sequence of cycles from a reachable
state, `total_files` and the length of the persisted path list are
non-decreasing, and the key set of `file_hashes` only grows. -/
theorem C7_monotonic (st st1 : AgentState) (h : Reaches st st1) :
    Reachable st →
    totalFilesOf st ≤ totalFilesOf st1 ∧
    pathCountOf st ≤ pathCountOf st1 ∧
    ∀ k ∈ hashKeysOf st, k ∈ hashKeysOf st1 := by
  induction h with
  | refl _ => exact fun _ => ⟨le_refl _, le_refl _, fun k hk => hk⟩
  | step env stA stB henv hAB ih =>
    intro h0
    have hreachB : Reachable stB := reaches_reachable stA stB hAB h0
    have hstep := step_mono env stB henv (reachable_inv stB hreachB)
    have ih2 := ih h0
    exact ⟨le_trans ih2.1 hstep.1, le_trans ih2.2.1 hstep.2.1,
      fun k hk => hstep.2.2 k (ih2.2.2 k hk)⟩

/-- Witness for C7: concrete application across one cycle from the
initial state. -/
theorem C7_witness :
    totalFilesOf st0 ≤ totalFilesOf stW1 ∧
    pathCountOf st0 ≤ pathCountOf stW1 := by
  have h := C7_monotonic st0 stW1
    (Reaches.step envW st0 st0 ⟨fun l => List.Perm.refl l, by decide⟩
      (Reaches.refl st0)) Reachable.init
  exact ⟨h.1, h.2.1⟩

/-- C8 (confirmed): when the generation call fails (or times out), the
cycle still completes without error — it returns `True`, commits the
cycle's newly processed paths to the processed set, records their
hashes, saves the state, and the persisted description field equals the
fixed fallback sentinel rather than an exception or a genuine
summary. -/
theorem C8_graceful_degradation (env : CycleEnv) (st : AgentState)
    (hfail : env.genCall = Except.error ())
    (hav : env.available = true)
    (hnf : newFiles env st ≠ [])
    (havs : (cycleCollected env st).avs ≠ []) :
    (process_new_files env st).retval = true ∧
    (process_new_files env st).saved = true ∧
    ((process_new_files env st).state.overall_summary.map
        OverallSummary.overall_ai_description) = some genFailureSentinel ∧
    (∀ p ∈ (cycleCollected env st).ppaths,
      p ∈ (process_new_files env st).state.processed_files) ∧
    (∀ p ∈ (cycleCollected env st).ppaths,
      p ∈ hashKeysOf (process_new_files env st).state) := by
  rw [pnf_commit env st hav hnf havs]
  refine ⟨rfl, rfl, ?_, ?_, ?_⟩
  · show some (generate_summary env.analysisCall env.genCall) =
      some genFailureSentinel
    rw [hfail, generate_summary_fail]
  · intro p hp
    exact (mem_setUpdate _ _ p).mpr (Or.inr hp)
  · intro p hp
    show p ∈ dictKeys (dictUpdate (priorHashes st.overall_summary)
      (cycleCollected env st).fhashes)
    apply (mem_dictKeys_dictUpdate _ _ p).mpr
    right
    exact collectFiles_ppaths_sub_keys env.loadFile env.hashOf
      (newFiles env st) ⟨placeholderSummaries st.overall_summary, [], []⟩
      (by simp) p hp

/-- Witness for C8: concrete application — a failing generation call on
a fresh agent with one good file persists the fallback sentinel. -/
theorem C8_witness :
    ((process_new_files envW8 st0).state.overall_summary.map
        OverallSummary.overall_ai_description) = some genFailureSentinel :=
  (C8_graceful_degradation envW8 st0 rfl rfl (by decide) (by decide)).2.2.1

/-! ### Idempotence over an unchanged directory -/

theorem newFiles_sameDirectory (e1 e2 : CycleEnv) (st : AgentState)
    (hsame : sameDirectory e1 e2) : newFiles e2 st = newFiles e1 st := by
  obtain ⟨hav, hjf, hname, hout, hload, hhash⟩ := hsame
  rw [newFiles, newFiles, hjf, hname, hout, hhash]

theorem cycleCollected_sameDirectory (e1 e2 : CycleEnv) (st : AgentState)
    (hsame : sameDirectory e1 e2) :
    cycleCollected e2 st = cycleCollected e1 st := by
  have hnf := newFiles_sameDirectory e1 e2 st hsame
  obtain ⟨hav, hjf, hname, hout, hload, hhash⟩ := hsame
  rw [cycleCollected, cycleCollected, hload, hhash, hnf]

theorem commit_hashes_append (env : CycleEnv) (st : AgentState)
    (hjson : env.jsonFiles.Nodup) (hinv : Inv st)
    (s0 : OverallSummary) (hos : st.overall_summary = some s0) :
    dictUpdate (priorHashes st.overall_summary)
        (cycleCollected env st).fhashes =
      s0.file_hashes ++ (cycleCollected env st).fhashes := by
  rw [hos]
  apply dictUpdate_disjoint
  · rw [cycle_keys_eq_ppaths env st hjson]
    exact cycle_ppaths_nodup env st hjson
  · intro k hk
    rw [cycle_keys_eq_ppaths env st hjson] at hk
    obtain ⟨hnodup, hrest⟩ := hinv
    rw [hos] at hrest
    obtain ⟨hperm0, _, _, hkeys0⟩ := hrest
    intro hk0
    have hk0b : k ∈ dictKeys s0.file_hashes := hk0
    have : k ∈ st.processed_files := hperm0.mem_iff.mpr (hkeys0 k hk0b)
    exact cycle_ppaths_fresh env st k hk this

theorem second_cycle_loads_empty (e1 e2 : CycleEnv) (st : AgentState)
    (henv1 : EnvOK e1) (hinv : Inv st) (hsame : sameDirectory e1 e2)
    (hav : e1.available = true) (hnf : newFiles e1 st ≠ [])
    (havs : (cycleCollected e1 st).avs ≠ []) :
    ∀ p ∈ newFiles e2 (process_new_files e1 st).state, e1.loadFile p = [] := by
  intro p hp2
  have hcommit := pnf_commit e1 st hav hnf havs
  set st1 := (process_new_files e1 st).state with hst1
  obtain ⟨hav2, hjf, hname, hout, hload, hhash⟩ := hsame
  rcases (mem_newFiles e2 st1 p).mp hp2 with ⟨hpj, hpname, hpnotin, hproc2⟩
  have hset1 : st1.processed_files =
      setUpdate st.processed_files (cycleCollected e1 st).ppaths := by
    rw [hst1, hcommit]
  rw [hset1] at hpnotin
  have hnot_st : p ∉ st.processed_files :=
    fun hmem => hpnotin ((mem_setUpdate _ _ p).mpr (Or.inl hmem))
  have hnot_pp : p ∉ (cycleCollected e1 st).ppaths :=
    fun hmem => hpnotin ((mem_setUpdate _ _ p).mpr (Or.inr hmem))
  have hproc1 : _is_file_processed e1.hashOf st.processed_files
      st.overall_summary p = false := by
    rcases Bool.eq_false_or_eq_true (_is_file_processed e1.hashOf
        st.processed_files st.overall_summary p) with hb | hb
    swap
    · exact hb
    · exfalso
      rcases is_processed_true_cases _ _ _ _ hb with hpf | ⟨s0, hos, hfh0, hv0⟩
      · exact hnot_st hpf
      · obtain ⟨s1, hs1os, hs1fh⟩ : ∃ s1, st1.overall_summary = some s1 ∧
            s1.file_hashes = dictUpdate (priorHashes st.overall_summary)
              (cycleCollected e1 st).fhashes := by
          rw [hst1, hcommit]
          exact ⟨_, rfl, rfl⟩
        have happ : s1.file_hashes =
            s0.file_hashes ++ (cycleCollected e1 st).fhashes := by
          rw [hs1fh]
          exact commit_hashes_append e1 st henv1.2 hinv s0 hos
        have hfh1 : s1.file_hashes ≠ [] := by
          rw [happ]
          intro hnil
          exact hfh0 (List.append_eq_nil.mp hnil).1
        have hv1 : _get_file_hash e1.hashOf p ∈ dictValues s1.file_hashes := by
          rw [happ, dictValues, List.map_append]
          exact List.mem_append.mpr (Or.inl hv0)
        have htrue : _is_file_processed e2.hashOf st1.processed_files
            st1.overall_summary p = true := by
          rw [hhash, hs1os]
          exact is_processed_of_hash e1.hashOf _ s1 p hfh1 hv1
        rw [hproc2] at htrue
        exact Bool.false_ne_true htrue
  have hp1 : p ∈ newFiles e1 st := by
    apply (mem_newFiles e1 st p).mpr
    refine ⟨hjf ▸ hpj, ?_, hnot_st, hproc1⟩
    rw [← hname, ← hout]
    exact hpname
  by_contra hne
  apply hnot_pp
  rw [cycleCollected_ppaths]
  exact List.mem_filter.mpr ⟨hp1, by simp [List.isEmpty_iff, hne]⟩

/-- C10 (confirmed): running a second cycle over an unchanged directory
(same scan result, file contents, hashes and collaborator availability;
the collaborator's answers, the clock and the set-enumeration order may
differ) leaves all bookkeeping of the persisted state unchanged from
any invariant-satisfying starting state: the processed set, the hash
map, `total_files` and `total_videos` after the second cycle equal
those after the first. -/
theorem C10_idempotent (e1 e2 : CycleEnv) (st : AgentState)
    (henv1 : EnvOK e1) (henv2 : EnvOK e2) (hinv : Inv st)
    (hsame : sameDirectory e1 e2) :
    (process_new_files e2 (process_new_files e1 st).state).state.processed_files
      = (process_new_files e1 st).state.processed_files ∧
    priorHashes
        (process_new_files e2
          (process_new_files e1 st).state).state.overall_summary
      = priorHashes (process_new_files e1 st).state.overall_summary ∧
    totalFilesOf (process_new_files e2 (process_new_files e1 st).state).state
      = totalFilesOf (process_new_files e1 st).state ∧
    totalVideosOf (process_new_files e2 (process_new_files e1 st).state).state
      = totalVideosOf (process_new_files e1 st).state := by
  have hsame2 := hsame
  obtain ⟨hav2, hjf, hname, hout, hload, hhash⟩ := hsame2
  by_cases hav : e1.available = true
  · by_cases hnf1 : newFiles e1 st = []
    · have hst1 : (process_new_files e1 st).state = st := by
        rw [pnf_noNew e1 st hav hnf1]
      have hnf2 : newFiles e2 st = [] := by
        rw [newFiles_sameDirectory e1 e2 st hsame]
        exact hnf1
      have hstate2 : (process_new_files e2
          (process_new_files e1 st).state).state
          = (process_new_files e1 st).state := by
        rw [hst1, pnf_noNew e2 st (by rw [hav2]; exact hav) hnf2]
      rw [hstate2]
      exact ⟨rfl, rfl, rfl, rfl⟩
    · by_cases havs1 : (cycleCollected e1 st).avs = []
      · have hst1 : (process_new_files e1 st).state = st := by
          rw [pnf_noItems e1 st hav hnf1 havs1]
        have hnf2 : newFiles e2 st ≠ [] := by
          rw [newFiles_sameDirectory e1 e2 st hsame]
          exact hnf1
        have havs2 : (cycleCollected e2 st).avs = [] := by
          rw [cycleCollected_sameDirectory e1 e2 st hsame]
          exact havs1
        have hstate2 : (process_new_files e2
            (process_new_files e1 st).state).state
            = (process_new_files e1 st).state := by
          rw [hst1, pnf_noItems e2 st (by rw [hav2]; exact hav) hnf2 havs2]
        rw [hstate2]
        exact ⟨rfl, rfl, rfl, rfl⟩
      · -- the first cycle commits
        have hload_empty := second_cycle_loads_empty e1 e2 st henv1 hinv
          hsame hav hnf1 havs1
        have hinv1 : Inv (process_new_files e1 st).state :=
          inv_preserved e1 st henv1 hinv
        set st1 := (process_new_files e1 st).state with hst1def
        have hav2t : e2.available = true := by rw [hav2]; exact hav
        have hfilter2 : (newFiles e2 st1).filter
            (fun p => !(e2.loadFile p).isEmpty) = [] := by
          apply List.filter_eq_nil.mpr
          intro a ha
          have hae : e2.loadFile a = [] := by
            rw [hload]
            exact hload_empty a ha
          simp [List.isEmpty_iff, hae]
        have hpp2 : (cycleCollected e2 st1).ppaths = [] := by
          rw [cycleCollected_ppaths]
          exact hfilter2
        have hfh2 : (cycleCollected e2 st1).fhashes = [] := by
          rw [cycleCollected_fhashes e2 st1 henv2.2, hfilter2]
          rfl
        have havs2eq : (cycleCollected e2 st1).avs =
            placeholderSummaries st1.overall_summary := by
          rw [cycleCollected_avs,
            extractsAll_eq_nil e2.loadFile (newFiles e2 st1) ?zero,
            List.append_nil]
          case zero =>
            intro q hq
            have hqe : e2.loadFile q = [] := by
              rw [hload]
              exact hload_empty q hq
            rw [hqe]
            rfl
        by_cases hnf2 : newFiles e2 st1 = []
        · have hstate2 : (process_new_files e2 st1).state = st1 := by
            rw [pnf_noNew e2 st1 hav2t hnf2]
          rw [hstate2]
          exact ⟨rfl, rfl, rfl, rfl⟩
        · by_cases havs2 : (cycleCollected e2 st1).avs = []
          · have hstate2 : (process_new_files e2 st1).state = st1 := by
              rw [pnf_noItems e2 st1 hav2t hnf2 havs2]
            rw [hstate2]
            exact ⟨rfl, rfl, rfl, rfl⟩
          · have hvid : ((cycleCollected e2 st1).avs.length : Int)
                = totalVideosOf st1 := by
              rw [havs2eq]
              cases hos1 : st1.overall_summary with
              | none => simp [placeholderSummaries, totalVideosOf, hos1]
              | some s1 =>
                obtain ⟨_, hrest1⟩ := hinv1
                rw [hos1] at hrest1
                obtain ⟨_, _, hvid1, _⟩ := hrest1
                simp [placeholderSummaries, totalVideosOf, hos1]
                exact hvid1
            have hcommit2 := pnf_commit e2 st1 hav2t hnf2 havs2
            rw [hcommit2, hpp2, hfh2]
            refine ⟨rfl, rfl, ?_, ?_⟩
            · show ((([] : List String).length : Int) +
                priorTotalFiles st1.overall_summary) = totalFilesOf st1
              simp [totalFilesOf]
            · show ((cycleCollected e2 st1).avs.length : Int)
                = totalVideosOf st1
              exact hvid
  · have hav1f : e1.available = false := by
      revert hav
      cases e1.available <;> simp
    have hav2f : e2.available = false := by rw [hav2, hav1f]
    have hst1 : (process_new_files e1 st).state = st := by
      rw [pnf_unavailable e1 st hav1f]
    have hstate2 : (process_new_files e2
        (process_new_files e1 st).state).state
        = (process_new_files e1 st).state := by
      rw [hst1, pnf_unavailable e2 st hav2f]
    rw [hstate2]
    exact ⟨rfl, rfl, rfl, rfl⟩

/-- Witness for C10: concrete application — repeating the `envW` cycle
from the initial state changes no bookkeeping. -/
theorem C10_witness :
    (process_new_files envW
        (process_new_files envW st0).state).state.processed_files
      = (process_new_files envW st0).state.processed_files ∧
    totalFilesOf (process_new_files envW
        (process_new_files envW st0).state).state
      = totalFilesOf (process_new_files envW st0).state := by
  have h := C10_idempotent envW envW st0
    ⟨fun l => List.Perm.refl l, by decide⟩
    ⟨fun l => List.Perm.refl l, by decide⟩
    ⟨List.nodup_nil, rfl⟩
    ⟨rfl, rfl, rfl, rfl, rfl, rfl⟩
  exact ⟨h.1, h.2.2.1⟩

end ContinuousAgent
